import Mathlib

/-!
Verification of the pseudopeople noising engine.

This file shallowly embeds the core of the pseudopeople repository:
the noise orchestrator (`noise.py`), the randomness helpers and selection
logic (`utilities.py`), the row- and column-noise operations
(`noise_functions.py`), the generic column-noise wrapper
(`entity_types.py`) and the string helper `_zfill_fast` (`dataset.py`).

Modelling conventions:
  * pandas Series/DataFrames become Lean lists; a series carries its
    integer index as `List (Nat × value)`, where the value of a cell is
    `Option String` (`none` models NaN).
  * Python floats become `ℚ`; probabilities drawn by the external
    vivarium randomness framework are modelled as explicit uniform-draw
    functions or as a concrete keyed hash (see `crnHash`), following the
    spec's description of the common-random-numbers service: a pure hash
    of (seed, key context, row index) mapped to a uniform value.
  * numpy's `default_rng(seed)` is modelled as a concrete pure stream of
    uniforms determined by the seed alone (see `np_rng_uniform`), which
    is the property of it that the source relies on.
  * Fallible code returns `Except String`.
-/

namespace Pseudopeople

/-! ### Python string primitives -/

/-- Characters stripped by python's `str.strip()` (ASCII whitespace). -/
def pyIsSpace (c : Char) : Bool :=
  c = ' ' || c = '\t' || c = '\n' || c = '\r' || c = Char.ofNat 11 || c = Char.ofNat 12

/-- Embeds python's `str.strip()`: removes leading and trailing whitespace. -/
def pyStrip (s : List Char) : List Char :=
  ((s.dropWhile pyIsSpace).reverse.dropWhile pyIsSpace).reverse

/-- Embeds the python slice `s[-n:]`: for `n = 0` the slice bound `-0` is `0`,
so the whole string is returned; otherwise the last `n` characters. -/
def pySliceFromNeg (s : List Char) (n : Nat) : List Char :=
  if n = 0 then s else s.drop (s.length - n)

/-- Definition following the claim's words for C10: the last `n` characters of
a string (empty when `n = 0`). Used to compare against `zfill_fast`. -/
def lastN (s : List Char) (n : Nat) : List Char :=
  s.drop (s.length - n)

/-- Embeds python's built-in `str.zfill(n)`: left-pad with zeros to length `n`,
keeping a leading sign character in front of the padding. -/
def str_zfill (s : List Char) (n : Nat) : List Char :=
  if n ≤ s.length then s
  else
    match s with
    | [] => List.replicate n '0'
    | c :: rest =>
      if c = '+' || c = '-' then c :: (List.replicate (n - (c :: rest).length) '0' ++ rest)
      else List.replicate (n - (c :: rest).length) '0' ++ (c :: rest)

/-- Embeds `_zfill_fast` from `dataset.py`:
`(("0" * desired_length) + col).str[-desired_length:]`. -/
def zfill_fast (col : List Char) (desired_length : Nat) : List Char :=
  pySliceFromNeg (List.replicate desired_length '0' ++ col) desired_length

/-- The decimal digit characters `"0123456789"` used by the digit-corruption
noise functions (`rng.choice(list("0123456789"))`). -/
def digitChar (d : Fin 10) : Char := Char.ofNat (48 + d.val)

/-! ### Randomness model -/

/-- Concrete 64-bit mixing step used to model keyed hashing. -/
def mix (h x : Nat) : Nat := ((h ^^^ x) * 1099511628211) % 2 ^ 64

/-- Concrete string hash feeding the keyed-hash model. -/
def strHash (s : String) : Nat :=
  s.data.foldl (fun h c => mix h c.toNat) (14695981039346656037 % 2 ^ 64)

/-- Modelled from the spec: the vivarium common-random-numbers framework
(external to this repository) hashes `(seed, key context, row index)` to a
value; the exact hash is irrelevant to the claims, only that it is a pure
function of those inputs. -/
def crnHash (seed : Nat) (key additional_key : String) (i : Nat) : Nat :=
  mix (mix (mix (strHash key) seed) (strHash additional_key)) i

/-- Uniform-in-[0,1) value obtained from the keyed hash. -/
def crnUniform (seed : Nat) (key additional_key : String) (i : Nat) : ℚ :=
  (crnHash seed key additional_key i : ℚ) / 2 ^ 64

/-- Embeds the `RandomnessStream` state that `get_randomness_stream` in
`utilities.py` constructs: the stream is fully determined by its key (the
dataset name) and the seed (the clock and index map do not vary per call). -/
structure RandomnessStream where
  key : String
  seed : Nat
deriving DecidableEq

/-- Embeds `get_randomness_stream` from `utilities.py`: builds a stream whose
key is the dataset name and whose seed is the caller's seed. -/
def get_randomness_stream (dataset_name : String) (seed : Nat) : RandomnessStream :=
  { key := dataset_name, seed := seed }

/-- Modelled from the spec: `RandomnessStream.get_draw` returns one uniform
draw per row of the index, as a pure keyed hash of
(seed, stream key, additional key, row index). -/
def RandomnessStream.get_draw
    (rs : RandomnessStream) (index : List Nat) (additional_key : String) : List ℚ :=
  index.map (fun i => crnUniform rs.seed rs.key additional_key i)

/-- Modelled from the spec: numpy's `default_rng(seed)` produces a stream of
uniform draws fully determined by the seed; draw number `n` of the stream. -/
def np_rng_uniform (seed : Nat) (n : Nat) : ℚ :=
  (mix (mix seed 1442695040888963407) n : ℚ) / 2 ^ 64

/-- Embeds the randomness used by `write_wrong_zipcode_digits` in
`noise_functions.py`: `rng = np.random.default_rng(randomness_stream.seed)`
followed by `rng.random((len(data), 5))`. The `column_name` argument is
received by the noise function but never reaches the generator, which is
seeded from the stream seed alone. -/
def zipcode_digit_replace_draws
    (randomness_stream : RandomnessStream) (column_name : String) (n_rows : Nat) :
    List (List ℚ) :=
  (List.range n_rows).map (fun r =>
    (List.range 5).map (fun c => np_rng_uniform randomness_stream.seed (5 * r + c)))

/-- Embeds the randomness used by `make_typos` in `noise_functions.py`:
`rng = np.random.default_rng(seed=randomness_stream.seed)` followed by
repeated `rng.uniform()` calls while scanning the strings. As for the
zipcode draws, the `column_name` argument never reaches the generator. -/
def make_typos_uniform_draws
    (randomness_stream : RandomnessStream) (column_name : String) (n_draws : Nat) :
    List ℚ :=
  (List.range n_draws).map (fun k => np_rng_uniform randomness_stream.seed k)

/-! ### Weighted choice service -/

/-- Embeds `np.cumsum` on a list of rationals. -/
def cumsum (l : List ℚ) : List ℚ :=
  (l.foldl (fun acc x =>
    match acc with
    | [] => [x]
    | y :: ys => (y + x) :: y :: ys) []).reverse

/-- Embeds `np.searchsorted(a, v, side="right")` on a sorted array: number of
elements of `a` that are `≤ v`. -/
def searchsorted_right (a : List ℚ) (v : ℚ) : Nat :=
  (a.filter (fun x => x ≤ v)).length

/-- Embeds `np.take(options, indices)`: raises `IndexError` when an index is
out of bounds, otherwise gathers the indexed elements. -/
def np_take (options : List String) (indices : List Nat) : Except String (List String) :=
  if indices.all (fun i => i < options.length) then
    Except.ok (indices.map (fun i => options.getD i ""))
  else Except.error "IndexError: index out of bounds"

/-- Embeds `vectorized_choice` from `utilities.py`. No validation of the
weights is performed by the source. The source computes `pmf = weights /
weights.sum()`; with nonnegative weights summing to zero every pmf entry is
numpy NaN (0/0), the cdf is all-NaN, and `np.searchsorted` over an all-NaN
cdf returns 0 for every probe (every comparison with NaN is false), which the
`weights.sum = 0` branch embeds directly. -/
def vectorized_choice
    (options : List String) (n_to_choose : Nat) (randomness_stream : RandomnessStream)
    (weights : Option (List ℚ)) (additional_key : String) :
    Except String (List String) :=
  let w : List ℚ :=
    match weights with
    | none => List.replicate options.length ((1 : ℚ) / options.length)
    | some w => w
  let probs := randomness_stream.get_draw (List.range n_to_choose) additional_key
  let chosen : List Nat :=
    if w.sum = 0 then probs.map (fun _ => 0)
    else
      let cdf := cumsum (w.map (fun x => x / w.sum))
      probs.map (fun p => searchsorted_right cdf p)
  np_take options chosen

/-! ### Noise selection -/

/-- Cell values of a series: `none` models NaN. A series keeps its pandas
integer index alongside each cell. -/
abbrev ColumnData := List (Nat × Option String)

/-- Embeds the missingness test used across the source
(`dataset.py: (data == "") | (data.isna())` and
`utilities.py: isna | isin([""])`): a cell is missing when it is NaN or the
empty string. -/
def is_missing (v : Option String) : Bool := v.isNone || v == some ""

/-- Modelled from the spec: vivarium's `filter_for_probability` (external to
this repository) keeps each index element whose uniform draw is below its
probability — "Selection is simply draw(...) < noise_level per eligible
row". The per-row uniform draw is passed in explicitly. -/
def filter_for_probability
    (index : List Nat) (probability : Nat → ℚ) (draw : Nat → ℚ) : List Nat :=
  index.filter (fun i => draw i < probability i)

/-- Embeds `get_index_to_noise` from `utilities.py` for row noise
(`is_column_noise=False`): every row of the current index is eligible. -/
def get_index_to_noise_row
    (index : List Nat) (noise_level : Nat → ℚ) (draw : Nat → ℚ) : List Nat :=
  filter_for_probability index noise_level draw

/-- Embeds `get_index_to_noise` from `utilities.py` for column noise
(`is_column_noise=True`): rows in which the passed data is missing (NaN or
empty string) are removed from the eligible index before selection. -/
def get_index_to_noise_column
    (data : ColumnData) (noise_level : ℚ) (draw : Nat → ℚ) : List Nat :=
  let missing_idx := (data.filter (fun p => is_missing p.2)).map Prod.fst
  let eligible_for_noise_idx :=
    (data.map Prod.fst).filter (fun i => ¬ i ∈ missing_idx)
  filter_for_probability eligible_for_noise_idx (fun _ => noise_level) draw

/-! ### Row noise operations -/

/-- Embeds the final clipping of `_get_census_omission_noise_levels` in
`noise_functions.py`: probabilities below 0 are set to 0, then those above 1
are set to 1. -/
def clip01 (p : ℚ) : ℚ := if p < 0 then 0 else if 1 < p then 1 else p

/-- Demographic fields of a row required by `apply_do_not_respond`. -/
structure DnrRow where
  age : ℚ
  race_ethnicity : String
  sex : String
deriving DecidableEq

/-- Embeds `_get_census_omission_noise_levels` from `noise_functions.py`:
base probability plus a race/ethnicity adjustment plus (for rows whose sex is
`"Female"` or `"Male"`) an age-binned sex-specific adjustment, the total then
clipped into [0, 1]. The adjustment tables live in the repository's constants
module (not part of the embedded core) and are passed as functions; the
`pd.cut` age binning is absorbed into `sex_age_adjustment`. -/
def get_census_omission_noise_levels
    (population : List (Nat × DnrRow)) (base_probability : ℚ)
    (race_adjustment : String → ℚ) (sex_age_adjustment : String → ℚ → ℚ) :
    List (Nat × ℚ) :=
  population.map (fun p =>
    let r := p.2
    let v := base_probability + race_adjustment r.race_ethnicity +
      (if r.sex = "Female" || r.sex = "Male" then sex_age_adjustment r.sex r.age else 0)
    (p.1, clip01 v))

/-- Embeds the noise-level computation of `apply_do_not_respond` in
`noise_functions.py`: the clipped demographic base levels, then `+ 0.276` for
the CPS dataset, then rescaling by `configured_noise_level /
default_noise_level`, then `0.5 + p / 2` for the ACS and CPS datasets. After
the clipping inside `_get_census_omission_noise_levels`, no further clipping
is applied. -/
def do_not_respond_noise_levels
    (dataset_name : String) (dataset_data : List (Nat × DnrRow))
    (base_probability : ℚ) (race_adjustment : String → ℚ)
    (sex_age_adjustment : String → ℚ → ℚ)
    (configured_noise_level default_noise_level : ℚ) : List (Nat × ℚ) :=
  let noise_levels :=
    get_census_omission_noise_levels dataset_data base_probability
      race_adjustment sex_age_adjustment
  let noise_levels :=
    if dataset_name = "cps" then noise_levels.map (fun p => (p.1, p.2 + 276 / 1000))
    else noise_levels
  let noise_levels :=
    noise_levels.map (fun p => (p.1, p.2 * (configured_noise_level / default_noise_level)))
  if dataset_name = "acs" || dataset_name = "cps" then
    noise_levels.map (fun p => (p.1, 1 / 2 + p.2 / 2))
  else noise_levels

/-- Looks up the noise level of a row index in a per-row level series. -/
def level_at (levels : List (Nat × ℚ)) (i : Nat) : ℚ :=
  ((levels.find? (fun p => p.1 = i)).map Prod.snd).getD 0

/-- Embeds `apply_do_not_respond` from `noise_functions.py`: fails when any of
the required demographic columns is absent; otherwise computes the per-row
noise levels, selects rows via `get_index_to_noise`, and returns the data
with the selected rows dropped (`data.loc[index.difference(to_noise_idx)]`). -/
def apply_do_not_respond
    (dataset_name : String) (columns : List String)
    (dataset_data : List (Nat × DnrRow))
    (base_probability : ℚ) (race_adjustment : String → ℚ)
    (sex_age_adjustment : String → ℚ → ℚ)
    (configured_noise_level default_noise_level : ℚ) (draw : Nat → ℚ) :
    Except String (List (Nat × DnrRow)) :=
  let required_columns := ["age", "race_ethnicity", "sex"]
  let missing_columns := required_columns.filter (fun c => ¬ c ∈ columns)
  if missing_columns ≠ [] then
    Except.error ("Dataset " ++ dataset_name ++ " is missing required columns")
  else
    let noise_levels :=
      do_not_respond_noise_levels dataset_name dataset_data base_probability
        race_adjustment sex_age_adjustment configured_noise_level default_noise_level
    let to_noise_idx :=
      get_index_to_noise_row (dataset_data.map Prod.fst) (level_at noise_levels) draw
    Except.ok (dataset_data.filter (fun p => ¬ p.1 ∈ to_noise_idx))

/-- Embeds `omit_rows` from `noise_functions.py`: selects a subset of the
current index at the configured row probability and returns the data with the
selected rows dropped. -/
def omit_rows {α : Type} (dataset_data : List (Nat × α)) (row_probability : ℚ)
    (draw : Nat → ℚ) : List (Nat × α) :=
  let to_noise_index :=
    get_index_to_noise_row (dataset_data.map Prod.fst) (fun _ => row_probability) draw
  dataset_data.filter (fun p => ¬ p.1 ∈ to_noise_index)

/-! ### Column noise operations -/

/-- Embeds `misreport_ages` from `noise_functions.py` on the selected values:
`new_values = data.astype(int) + perturbations`, then
`new_values[new_values < 0] *= -1`, then
`new_values[new_values == data.astype(int)] -= 1`. The perturbations are the
values drawn by `vectorized_choice` from the configured distribution. -/
def misreport_ages (ages : List Int) (perturbations : List Int) : List Int :=
  let new_values := List.zipWith (fun a p => a + p) ages perturbations
  let new_values := new_values.map (fun v => if v < 0 then v * -1 else v)
  List.zipWith (fun v a => if v = a then v - 1 else v) new_values ages

/-- Embeds `data.str.pad(longest_str, side="right")` from
`write_wrong_digits`: pad on the right with spaces to the given length. -/
def pad_right (s : List Char) (n : Nat) : List Char :=
  s ++ List.replicate (n - s.length) ' '

/-- Embeds one character position of `write_wrong_digits` in
`noise_functions.py`: `np.where(replace.iloc[:, i], random_digits[:, i],
same_len_col.str[i])`, where `replace = (rng.random(shape) < level) &
is_number`. The boolean draw `replace_draw i` models
`rng.random < token_noise_level` at position `i`; `digit_draw i` models
`rng.choice(list("0123456789"))`. -/
def wwd_pos (s : List Char) (longest_str : Nat)
    (replace_draw : Nat → Bool) (digit_draw : Nat → Fin 10) (i : Nat) : Char :=
  let c := (pad_right s longest_str).getD i ' '
  if c.isDigit && replace_draw i then digitChar (digit_draw i) else c

/-- Embeds the per-string work of `write_wrong_digits` in
`noise_functions.py`: pad the string with spaces to the length of the longest
string in the column, replace each digit position whose uniform draw selected
it with a random digit, concatenate the positions back, and `str.strip()`
the result. -/
def write_wrong_digits_string
    (s : List Char) (longest_str : Nat)
    (replace_draw : Nat → Bool) (digit_draw : Nat → Fin 10) : List Char :=
  pyStrip ((List.range longest_str).map (wwd_pos s longest_str replace_draw digit_draw))

/-- Embeds `write_wrong_digits` from `noise_functions.py` over the selected
column: every string is processed against the longest string length of the
column; draws are indexed by (row position, character position). -/
def write_wrong_digits
    (data : List (List Char))
    (replace_draw : Nat → Nat → Bool) (digit_draw : Nat → Nat → Fin 10) :
    List (List Char) :=
  let longest_str := (data.map List.length).foldl max 0
  data.mapIdx (fun r s => write_wrong_digits_string s longest_str (replace_draw r) (digit_draw r))

/-- Embeds `write_wrong_zipcode_digits` from `noise_functions.py`: first the
length check (`if (data.str.len() != 5).sum() > 0: raise ValueError`), raised
before any noising happens; then each of the 5 character positions of every
value is independently replaced by a random digit when its draw selected it
(`np.where(replace[:, i], random_digits[:, i], data.str[i])`), and the
positions are concatenated back into 5-character strings. Note the check is
on the string length only; the characters are not required to be digits. -/
def write_wrong_zipcode_digits
    (data : List (List Char))
    (replace_draw : Nat → Nat → Bool) (digit_draw : Nat → Nat → Fin 10) :
    Except String (List (List Char)) :=
  if data.any (fun s => s.length ≠ 5) then
    Except.error "Zipcode data contains zipcodes that are not 5 digits long. Please check input data."
  else
    Except.ok (data.mapIdx (fun r s =>
      (List.range 5).map (fun i =>
        if replace_draw r i then digitChar (digit_draw r i) else s.getD i ' ')))

/-! ### Generic column-noise wrapper -/

/-- Embeds `ColumnNoiseType.__call__` from `entity_types.py` for a single
column: no-op on an empty column; the effective noise level is
`cell_probability * scaling` clamped to at most 1; the to-noise index is
computed by `get_index_to_noise` over the column (excluding missing cells);
no-op when it is empty; otherwise the type-specific algorithm is invoked on
the selected rows and its results are written back at the selected index.
`noise_function selected i` is the algorithm's output for row `i` given the
selected sub-series. -/
def column_noise_call
    (data : ColumnData) (cell_probability scaling : ℚ) (draw : Nat → ℚ)
    (noise_function : ColumnData → Nat → Option String) : ColumnData :=
  if data = [] then data
  else
    let noise_level := min (cell_probability * scaling) 1
    let to_noise_idx := get_index_to_noise_column data noise_level draw
    if to_noise_idx = [] then data
    else
      let selected := data.filter (fun p => p.1 ∈ to_noise_idx)
      data.map (fun p =>
        if p.1 ∈ to_noise_idx then (p.1, noise_function selected p.1) else p)

/-- One enabled column-noise operation of a configuration: its probability
and scaling, its per-row uniform selection draw, and its algorithm. -/
structure ColumnNoiseOp where
  cell_probability : ℚ
  scaling : ℚ
  draw : Nat → ℚ
  noise_function : ColumnData → Nat → Option String

/-- Applies a sequence of enabled column-noise operations to a column in
catalog order, each against the current (already partially noised) column,
as the orchestrator in `noise.py` does. -/
def apply_column_noise_ops (data : ColumnData) (ops : List ColumnNoiseOp) : ColumnData :=
  ops.foldl
    (fun d op => column_noise_call d op.cell_probability op.scaling op.draw op.noise_function)
    data

/-! ### Noise orchestrator -/

/-- Configuration node for one (column, noise type) pair: key/value pairs such
as `cell_probability` or `token_probability`. -/
abbrev ConfNode := List (String × ℚ)

/-- Embeds the form-level configuration consumed by `noise_form`: an
iteration order over configured columns, the set of noise-type names enabled
per column, and the per-(column, type) configuration node. -/
structure FormConfig where
  columnOrder : List String
  hasNoise : String → String → Bool
  node : String → String → ConfNode

/-- Working table threaded through the orchestrator: the schema's column
names and the rows, each row mapping a column name to a cell value. -/
structure Table where
  cols : List String
  rows : List (Nat × (String → Option String))

/-- Embeds `form_data[column]`: extraction of one column as a series. -/
def Table.getColumn (t : Table) (column : String) : ColumnData :=
  t.rows.map (fun p => (p.1, p.2 column))

/-- Embeds `form_data[column] = series`: writes a column back into the table,
aligning by index. -/
def Table.setColumn (t : Table) (column : String) (col : ColumnData) : Table :=
  { cols := t.cols,
    rows := t.rows.map (fun p =>
      (p.1, fun c => if c = column then ((col.find? (fun q => q.1 = p.1)).map Prod.snd).getD none
                     else p.2 c)) }

/-- Entry of the fixed noise-type catalog `NOISE_TYPES` (declared in the
repository's entities module): either a row-noise type, whose function maps
the whole table, or a column-noise type, whose function maps one column given
its configuration node, the randomness stream and the column name. -/
inductive NoiseTypeDef where
  | rowNoise (name : String) (fn : Table → FormConfig → RandomnessStream → Table)
  | colNoise (name : String) (fn : ColumnData → ConfNode → RandomnessStream → String → ColumnData)

/-- Embeds `noise_form` from `noise.py`: builds the randomness stream from the
form name and the seed, then walks the fixed noise-type catalog in order; a
row-noise entry maps the whole table; a column-noise entry is applied, in
configuration order, to every configured column present in the table, each
application seeing the current table. -/
def noise_form
    (noise_types : List NoiseTypeDef) (form : String) (form_data : Table)
    (configuration : FormConfig) (seed : Nat) : Table :=
  let randomness := get_randomness_stream form seed
  noise_types.foldl
    (fun data nt =>
      match nt with
      | .rowNoise _ fn => fn data configuration randomness
      | .colNoise name fn =>
        let columns_to_noise :=
          configuration.columnOrder.filter
            (fun col => data.cols.contains col && configuration.hasNoise col name)
        columns_to_noise.foldl
          (fun d column =>
            d.setColumn column (fn (d.getColumn column) (configuration.node column name) randomness column))
          data)
    form_data

/-! ### Helper lemmas -/

theorem aux_le_foldl_max (l : List Nat) (a : Nat) : a ≤ l.foldl max a := by
  induction l generalizing a with
  | nil => exact Nat.le_refl a
  | cons b t ih => exact Nat.le_trans (Nat.le_max_left a b) (ih (max a b))

theorem mem_le_foldl_max (l : List Nat) (a : Nat) : ∀ x ∈ l, x ≤ l.foldl max a := by
  induction l generalizing a with
  | nil => intro x hx; cases hx
  | cons b t ih =>
    intro x hx
    rcases List.mem_cons.mp hx with h | h
    · subst h
      exact Nat.le_trans (Nat.le_max_right a x) (aux_le_foldl_max t (max a x))
    · exact ih (max a b) x h

/-! ### C10: the `_zfill_fast` helper -/

/-- C10 counterexample: the claim states that `_zfill_fast(s, n)` returns the
last `n` characters of `n` zeros prepended to `s` for every `n`, but for
`n = 0` the python slice `[-0:]` is `[0:]`, so the whole string is returned
while the last 0 characters would be the empty string. -/
theorem zfill_fast_zero_length_cex :
    zfill_fast ['a'] 0 = ['a'] ∧
    lastN (List.replicate 0 '0' ++ ['a']) 0 = [] ∧
    (['a'] : List Char) ≠ [] := by
  refine ⟨rfl, rfl, by simp⟩

/-- C10 (amended): for every string `s` and every desired length `n ≥ 1`,
`_zfill_fast(s, n)` returns the last `n` characters of the concatenation of
`n` zero characters and `s`; and for every `s` of length at most `n` with no
leading sign character, `_zfill_fast(s, n)` equals `str.zfill(n)` (this part
holds for every `n`, including 0). -/
theorem zfill_fast_amended (col : List Char) (n : Nat) :
    (1 ≤ n → zfill_fast col n = lastN (List.replicate n '0' ++ col) n) ∧
    (col.length ≤ n → (∀ c, col.head? = some c → c ≠ '+' ∧ c ≠ '-') →
      zfill_fast col n = str_zfill col n) := by
  constructor
  · intro hn
    have hne : n ≠ 0 := by omega
    simp [zfill_fast, pySliceFromNeg, lastN, hne]
  · intro hlen hsign
    rcases Nat.eq_zero_or_pos n with h0 | hp
    · subst h0
      have hcol : col = [] := List.eq_nil_of_length_eq_zero (Nat.le_zero.mp hlen)
      subst hcol
      rfl
    · have hne : n ≠ 0 := by omega
      have hlenapp : (List.replicate n '0' ++ col).length - n = col.length := by
        simp only [List.length_append, List.length_replicate]
        omega
      have hdrop : zfill_fast col n = List.replicate (n - col.length) '0' ++ col := by
        simp only [zfill_fast, pySliceFromNeg, hne, if_false, hlenapp]
        rw [List.drop_append_eq_append_drop, List.drop_replicate, List.length_replicate,
          Nat.sub_eq_zero_of_le hlen, List.drop_zero]
      rw [hdrop]
      rcases Nat.lt_or_ge col.length n with hlt | hge
      · cases col with
        | nil =>
          have hnle : ¬ n ≤ ([] : List Char).length := by
            simp only [List.length_nil]
            omega
          simp [str_zfill, hnle, hne]
        | cons c rest =>
          have hc := hsign c rfl
          simp only [str_zfill, if_neg (by omega : ¬ n ≤ (c :: rest).length)]
          have : (c = '+' || c = '-') = false := by
            simp [hc.1, hc.2]
          rw [this]
          simp
      · have heq : col.length = n := Nat.le_antisymm hlen hge
        simp [str_zfill, heq, Nat.sub_self]

/-- C10 witness: the amended statement evaluated at a concrete input. -/
theorem zfill_fast_amended_witness :
    zfill_fast ['7'] 3 = lastN (List.replicate 3 '0' ++ ['7']) 3 ∧
    zfill_fast ['7'] 3 = str_zfill ['7'] 3 :=
  ⟨(zfill_fast_amended ['7'] 3).1 (by decide),
   (zfill_fast_amended ['7'] 3).2 (by decide) (by decide)⟩

/-! ### C4: age misreporting -/

/-- C4: for every list of ages that are all nonnegative and every list of
perturbations that are all nonzero, every value produced by `misreport_ages`
is nonnegative and differs from the corresponding input age: a negative sum
is reflected to positive, and a result equal to the original age has 1
subtracted. -/
theorem misreport_ages_nonneg_and_changed
    (ages perturbations : List Int)
    (ha : ∀ a ∈ ages, 0 ≤ a) (hp : ∀ p ∈ perturbations, p ≠ 0)
    (k : Nat) (hk : k < (misreport_ages ages perturbations).length) :
    ∃ hka : k < ages.length,
      0 ≤ (misreport_ages ages perturbations).get ⟨k, hk⟩ ∧
      (misreport_ages ages perturbations).get ⟨k, hk⟩ ≠ ages.get ⟨k, hka⟩ := by
  have hlen : k < ages.length ∧ k < perturbations.length := by
    simp only [misreport_ages, List.length_zipWith, List.length_map] at hk
    omega
  refine ⟨hlen.1, ?_⟩
  have hval : (misreport_ages ages perturbations).get ⟨k, hk⟩ =
      (fun v a => if v = a then v - 1 else v)
        ((fun v => if v < 0 then v * -1 else v)
          (ages.get ⟨k, hlen.1⟩ + perturbations.get ⟨k, hlen.2⟩))
        (ages.get ⟨k, hlen.1⟩) := by
    simp only [misreport_ages, List.get_eq_getElem, List.getElem_zipWith, List.getElem_map]
  have hA := ha (ages.get ⟨k, hlen.1⟩) (ages.get_mem k hlen.1)
  have hP := hp (perturbations.get ⟨k, hlen.2⟩) (perturbations.get_mem k hlen.2)
  rw [hval]
  set a := ages.get ⟨k, hlen.1⟩ with hadef
  set p := perturbations.get ⟨k, hlen.2⟩ with hpdef
  simp only
  constructor
  · split_ifs <;> omega
  · split_ifs <;> omega

/-- C4 witness: age 3 with perturbation -6 reflects to 3 and then has 1
subtracted, giving 2, which is nonnegative and differs from 3. -/
theorem misreport_ages_nonneg_and_changed_witness :
    ∃ hka : 0 < ([3] : List Int).length,
      0 ≤ (misreport_ages [3] [-6]).get ⟨0, by decide⟩ ∧
      (misreport_ages [3] [-6]).get ⟨0, by decide⟩ ≠ ([3] : List Int).get ⟨0, hka⟩ :=
  misreport_ages_nonneg_and_changed [3] [-6] (by decide) (by decide) 0 (by decide)

/-! ### C9: do-not-respond noise levels can exceed 1 -/

/-- C9: the clipping to [0, 1] happens only inside the base demographic
probability computation; the CPS additive bump, the configured/default
rescaling and the ACS/CPS transform are applied afterwards with no further
clipping, so a CPS row whose clipped base probability is 1, with a configured
probability (3/10) above the dataset default (2/10), receives a selection
probability of 1457/1000 > 1. -/
theorem do_not_respond_levels_exceed_one :
    do_not_respond_noise_levels "cps" [(0, ⟨30, "White", "Female"⟩)]
      1 (fun _ => 0) (fun _ _ => 0) (3 / 10) (2 / 10) = [(0, 1457 / 1000)] ∧
    (1 : ℚ) < 1457 / 1000 := by
  constructor
  · norm_num [do_not_respond_noise_levels, get_census_omission_noise_levels, clip01]
  · norm_num

/-! ### C1: determinism of the noising pipeline -/

/-- C1: for every noise-type catalog, form, configuration tree, input table
and seed, two runs of `noise_form` produce identical output tables: the whole
pipeline is a pure function of its inputs, with all randomness derived from
the seed through the keyed randomness stream. -/
theorem noise_form_deterministic
    (noise_types : List NoiseTypeDef) (form : String) (form_data : Table)
    (configuration : FormConfig) (seed1 seed2 : Nat) (h : seed1 = seed2) :
    noise_form noise_types form form_data configuration seed1 =
      noise_form noise_types form form_data configuration seed2 := by
  rw [h]

/-- C1 witness: the determinism theorem applied at a concrete catalog, table
and seed. -/
theorem noise_form_deterministic_witness :
    noise_form [] "census" ⟨["age"], [(0, fun _ => none)]⟩
      ⟨["age"], fun _ _ => false, fun _ _ => []⟩ 42 =
    noise_form [] "census" ⟨["age"], [(0, fun _ => none)]⟩
      ⟨["age"], fun _ _ => false, fun _ _ => []⟩ 42 :=
  noise_form_deterministic [] "census" _ _ 42 42 rfl

/-! ### C6: row noise only removes rows -/

/-- C6: for every input table and every row probability (scalar for
`omit_rows`, per-row via the demographic model for `apply_do_not_respond`),
the output is a sublist of the input: its row index is a subset of the
input's and every surviving row is unchanged in every column. -/
theorem row_noise_only_removes_rows {α : Type}
    (dataset_name : String) (dataset_data : List (Nat × α))
    (row_probability : ℚ) (draw : Nat → ℚ) :
    (omit_rows dataset_data row_probability draw).Sublist dataset_data ∧
    (∀ (columns : List String) (dnr_data : List (Nat × DnrRow))
        (base_probability : ℚ) (race_adjustment : String → ℚ)
        (sex_age_adjustment : String → ℚ → ℚ)
        (configured_noise_level default_noise_level : ℚ) (draw2 : Nat → ℚ)
        (out : List (Nat × DnrRow)),
        apply_do_not_respond dataset_name columns dnr_data base_probability
          race_adjustment sex_age_adjustment configured_noise_level
          default_noise_level draw2 = Except.ok out →
        out.Sublist dnr_data) := by
  constructor
  · exact List.filter_sublist _
  · intro columns dnr_data b ra saa cl dl draw2 out h
    simp only [apply_do_not_respond] at h
    split at h
    · exact absurd h (by simp)
    · simp only [Except.ok.injEq] at h
      subst h
      exact List.filter_sublist _

/-- C6 witness: the theorem applied at concrete inputs; with probability 1/2
and a zero draw the single row is removed by both operations. -/
theorem row_noise_only_removes_rows_witness :
    (omit_rows [((0 : Nat), "row")] (1 / 2) (fun _ => 0)).Sublist [(0, "row")] ∧
    ([] : List (Nat × DnrRow)).Sublist [(0, ⟨30, "White", "Female"⟩)] := by
  constructor
  · exact (row_noise_only_removes_rows "census" [((0 : Nat), "row")] (1 / 2) (fun _ => 0)).1
  · exact (row_noise_only_removes_rows "census" ([] : List (Nat × String)) 0 (fun _ => 0)).2
      ["age", "race_ethnicity", "sex"] [(0, ⟨30, "White", "Female"⟩)] (1 / 2)
      (fun _ => 0) (fun _ _ => 0) (1 / 2) (1 / 2) (fun _ => 0) []
      (by norm_num [apply_do_not_respond, do_not_respond_noise_levels,
        get_census_omission_noise_levels, clip01, level_at,
        get_index_to_noise_row, filter_for_probability,
        show ("census" : String) ≠ "acs" from by decide,
        show ("census" : String) ≠ "cps" from by decide])

/-! ### C3: keyed draws versus numpy generator draws -/

/-- C3 counterexample: the draws actually used by `write_wrong_zipcode_digits`
and `make_typos` come from `np.random.default_rng(randomness_stream.seed)`,
which ignores the key context entirely: with the same seed, two different
key contexts (column names) receive bit-identical—hence maximally
dependent, not independent—draw sequences. -/
theorem numpy_rng_ignores_key_context_cex :
    zipcode_digit_replace_draws (get_randomness_stream "census" 0) "zipcode" 2 =
      zipcode_digit_replace_draws (get_randomness_stream "census" 0) "mailing_address_zipcode" 2 ∧
    make_typos_uniform_draws (get_randomness_stream "census" 0) "first_name" 3 =
      make_typos_uniform_draws (get_randomness_stream "census" 0) "last_name" 3 ∧
    "zipcode" ≠ "mailing_address_zipcode" ∧
    "first_name" ≠ "last_name" :=
  ⟨rfl, rfl, by decide, by decide⟩

/-- C3 (amended): randomness-stream draws (`get_draw`) are a pure function of
(seed, stream key, additional key, index), so calls with identical context
are bit-identical and no operation's stream draws depend on which other
operations have run; but `write_wrong_zipcode_digits` and `make_typos` seed a
fresh numpy generator from the stream seed alone, so their draw sequences are
identical across different key contexts rather than independent. -/
theorem randomness_draws_amended :
    (∀ (rs1 rs2 : RandomnessStream) (index : List Nat) (additional_key : String),
        rs1.seed = rs2.seed → rs1.key = rs2.key →
        rs1.get_draw index additional_key = rs2.get_draw index additional_key) ∧
    (∀ (rs : RandomnessStream) (c1 c2 : String) (n : Nat),
        zipcode_digit_replace_draws rs c1 n = zipcode_digit_replace_draws rs c2 n) ∧
    (∀ (rs : RandomnessStream) (c1 c2 : String) (n : Nat),
        make_typos_uniform_draws rs c1 n = make_typos_uniform_draws rs c2 n) := by
  refine ⟨?_, ?_, ?_⟩
  · rintro ⟨k1, s1⟩ ⟨k2, s2⟩ index additional_key h1 h2
    simp only at h1 h2
    subst h1; subst h2
    rfl
  · intro rs c1 c2 n; rfl
  · intro rs c1 c2 n; rfl

/-- C3 witness: the amended statement applied to two streams with equal key
and seed. -/
theorem randomness_draws_amended_witness :
    (get_randomness_stream "census" 7).get_draw [0, 1] "age_miswrite_ages" =
      (get_randomness_stream "census" 7).get_draw [0, 1] "age_miswrite_ages" :=
  randomness_draws_amended.1 (get_randomness_stream "census" 7)
    (get_randomness_stream "census" 7) [0, 1] "age_miswrite_ages" rfl rfl

/-! ### C8: vectorized_choice performs no validation -/

theorem cumsum_aux_length (l : List ℚ) (acc : List ℚ) :
    (l.foldl (fun acc x =>
      match acc with
      | [] => [x]
      | y :: ys => (y + x) :: y :: ys) acc).length = acc.length + l.length := by
  induction l generalizing acc with
  | nil => simp
  | cons b t ih =>
    simp only [List.foldl_cons]
    rw [ih]
    cases acc <;> simp <;> omega

theorem cumsum_length (l : List ℚ) : (cumsum l).length = l.length := by
  unfold cumsum
  rw [List.length_reverse, cumsum_aux_length]
  simp

theorem searchsorted_right_le (a : List ℚ) (v : ℚ) : searchsorted_right a v ≤ a.length :=
  List.length_filter_le _ _

theorem np_take_isOk (options : List String) (idx : List Nat)
    (h : ∀ i ∈ idx, i < options.length) : (np_take options idx).isOk = true := by
  simp only [np_take]
  rw [if_pos]
  · rfl
  · rw [List.all_eq_true]
    intro i hi
    simpa using h i hi

theorem vectorized_choice_isOk_of_short_weights
    (options : List String) (n_to_choose : Nat) (rs : RandomnessStream)
    (weights : List ℚ) (additional_key : String)
    (h : weights.length < options.length) :
    (vectorized_choice options n_to_choose rs (some weights) additional_key).isOk = true := by
  simp only [vectorized_choice]
  apply np_take_isOk
  intro i hi
  split at hi
  · rcases List.mem_map.mp hi with ⟨p, hp, rfl⟩
    omega
  · rcases List.mem_map.mp hi with ⟨p, hp, rfl⟩
    calc searchsorted_right _ p ≤ _ := searchsorted_right_le _ _
    _ = weights.length := by rw [cumsum_length, List.length_map]
    _ < options.length := h

/-- C8 counterexample: `vectorized_choice` does not fail on degenerate
weights. With weights summing to zero it silently returns `options[0]` for
every draw (the all-NaN cdf makes every `searchsorted` probe return 0), and
with a weights list shorter than the options list it silently succeeds,
restricting the choice to an initial segment of the options. -/
theorem vectorized_choice_no_validation_cex :
    vectorized_choice ["a", "b"] 3 (get_randomness_stream "census" 0) (some [0, 0]) "k" =
      Except.ok ["a", "a", "a"] ∧
    ([(0 : ℚ), 0].sum = 0) ∧
    (vectorized_choice ["a", "b", "c"] 2 (get_randomness_stream "census" 0)
      (some [1]) "k2").isOk = true ∧
    [(1 : ℚ)].length ≠ (["a", "b", "c"] : List String).length := by
  refine ⟨?_, by simp, ?_, by simp⟩
  · norm_num [vectorized_choice, RandomnessStream.get_draw, np_take, List.range_succ,
      List.getD]
  · exact vectorized_choice_isOk_of_short_weights _ _ _ _ _ (by simp)

/-- C8 (amended): `vectorized_choice` performs no validation. Weights summing
to zero do not raise: the division by zero produces an all-NaN cdf, every
`searchsorted` probe returns 0, and the call silently returns the first
option for every draw. A weights list shorter than the options list is not
detected either: the call silently succeeds with choices restricted to a
prefix of the options (a longer weights list can only surface as an
IndexError from `np.take`, not a ConfigurationError). -/
theorem vectorized_choice_amended :
    (∀ (options : List String) (n_to_choose : Nat) (rs : RandomnessStream)
        (weights : List ℚ) (additional_key : String),
        weights.sum = 0 → 0 < options.length →
        vectorized_choice options n_to_choose rs (some weights) additional_key =
          Except.ok (List.replicate n_to_choose (options.getD 0 ""))) ∧
    (∀ (options : List String) (n_to_choose : Nat) (rs : RandomnessStream)
        (weights : List ℚ) (additional_key : String),
        weights.length < options.length →
        (vectorized_choice options n_to_choose rs (some weights) additional_key).isOk
          = true) := by
  constructor
  · intro options n rs w adk hw hopt
    simp only [vectorized_choice, hw, if_pos, RandomnessStream.get_draw, List.map_map]
    have hmap : (List.range n).map ((fun _ => 0) ∘ fun i => crnUniform rs.seed rs.key adk i)
        = List.replicate n 0 := by
      rw [show ((fun _ => 0) ∘ fun i => crnUniform rs.seed rs.key adk i) = fun _ => (0 : Nat)
        from rfl]
      rw [List.map_const']
      simp
    rw [hmap]
    simp only [np_take]
    rw [if_pos]
    · rw [List.map_replicate]
    · rw [List.all_eq_true]
      intro i hi
      rcases List.eq_of_mem_replicate hi with rfl
      simpa using hopt
  · intro options n rs w adk h
    exact vectorized_choice_isOk_of_short_weights options n rs w adk h

/-- C8 witness: the amended statement applied at concrete degenerate inputs. -/
theorem vectorized_choice_amended_witness :
    vectorized_choice ["x", "y"] 2 (get_randomness_stream "census" 1) (some [0, 0, 0]) "wk" =
      Except.ok (List.replicate 2 ((["x", "y"] : List String).getD 0 "")) ∧
    (vectorized_choice ["x", "y"] 5 (get_randomness_stream "census" 1)
      (some [1]) "wk2").isOk = true :=
  ⟨vectorized_choice_amended.1 ["x", "y"] 2 (get_randomness_stream "census" 1) [0, 0, 0]
      "wk" (by simp) (by simp),
   vectorized_choice_amended.2 ["x", "y"] 5 (get_randomness_stream "census" 1) [1]
      "wk2" (by simp)⟩

/-! ### C2: missingness is preserved by column noise -/

theorem column_noise_call_map_fst (data : ColumnData) (cp sc : ℚ) (draw : Nat → ℚ)
    (fn : ColumnData → Nat → Option String) :
    (column_noise_call data cp sc draw fn).map Prod.fst = data.map Prod.fst := by
  simp only [column_noise_call]
  split
  · rfl
  · split
    · rfl
    · rw [List.map_map]
      apply List.map_congr_left
      intro p hp
      simp only [Function.comp_apply]
      split <;> rfl

theorem column_noise_call_length (data : ColumnData) (cp sc : ℚ) (draw : Nat → ℚ)
    (fn : ColumnData → Nat → Option String) :
    (column_noise_call data cp sc draw fn).length = data.length := by
  have h := congrArg List.length (column_noise_call_map_fst data cp sc draw fn)
  simpa using h

theorem column_noise_call_missing_preserved (data : ColumnData) (cp sc : ℚ)
    (draw : Nat → ℚ) (fn : ColumnData → Nat → Option String)
    (k : Nat) (hk : k < data.length)
    (hm : is_missing (data[k]).2 = true) :
    (column_noise_call data cp sc draw fn)[k]? = some data[k] := by
  have hnot : ¬ (data[k]).1 ∈
      get_index_to_noise_column data (min (cp * sc) 1) draw := by
    intro hmem
    simp only [get_index_to_noise_column, filter_for_probability] at hmem
    have h1 := (List.mem_filter.mp hmem).1
    have h2 := (List.mem_filter.mp h1).2
    have h3 : (data[k]).1 ∈
        (data.filter (fun p => is_missing p.2)).map Prod.fst :=
      List.mem_map_of_mem Prod.fst
        (List.mem_filter.mpr ⟨List.getElem_mem hk, hm⟩)
    simp only [decide_not, Bool.not_eq_true', decide_eq_false_iff_not] at h2
    exact h2 h3
  simp only [column_noise_call]
  split
  · exact List.getElem?_eq_getElem hk
  · split
    · exact List.getElem?_eq_getElem hk
    · rw [List.getElem?_map, List.getElem?_eq_getElem hk]
      simp only [Option.map_some']
      rw [if_neg hnot]

/-- C2: for every input column, for every sequence of enabled column-noise
operations, a cell that is missing in the input (NaN or empty string) is
returned unchanged — still missing — by the whole sequence: the to-noise
index selection excludes every row in which the cell is missing, so no
operation ever writes into a missing cell. -/
theorem column_noise_missingness_preserved (data : ColumnData)
    (ops : List ColumnNoiseOp) (k : Nat) (hk : k < data.length)
    (hm : is_missing (data[k]).2 = true) :
    (apply_column_noise_ops data ops)[k]? = some data[k] := by
  induction ops generalizing data with
  | nil => exact List.getElem?_eq_getElem hk
  | cons op ops ih =>
    have hstep := column_noise_call_missing_preserved data op.cell_probability op.scaling
        op.draw op.noise_function k hk hm
    have hk1 : k < (column_noise_call data op.cell_probability op.scaling
        op.draw op.noise_function).length := by
      rw [column_noise_call_length]; exact hk
    have heq : (column_noise_call data op.cell_probability op.scaling
        op.draw op.noise_function)[k] = data[k] := by
      have := List.getElem?_eq_getElem hk1
      rw [this] at hstep
      exact Option.some.inj hstep
    have hm1 : is_missing ((column_noise_call data op.cell_probability op.scaling
        op.draw op.noise_function)[k]).2 = true := by
      rw [heq]; exact hm
    have hfold := ih (column_noise_call data op.cell_probability op.scaling op.draw
        op.noise_function) hk1 hm1
    rw [heq] at hfold
    exact hfold

/-- C2 witness: a missing cell (empty string) survives a noise operation that
would overwrite every selected cell with a non-missing value at probability
1, while its non-missing neighbour is eligible. -/
theorem column_noise_missingness_preserved_witness :
    (apply_column_noise_ops [((0 : Nat), some ""), (1, some "x")]
        [⟨1, 1, fun _ => 0, fun _ _ => some "Z"⟩])[0]? = some ((0 : Nat), some "") :=
  column_noise_missingness_preserved [((0 : Nat), some ""), (1, some "x")]
    [⟨1, 1, fun _ => 0, fun _ _ => some "Z"⟩] 0 (by decide) (by decide)

/-! ### C7: the zipcode length check -/

/-- C7 counterexample: the claim states the operation fails when a value is
not exactly 5 digits, but the source only checks the string length: a
5-character value made of letters passes the check and is noised without any
error. -/
theorem write_wrong_zipcode_digits_nondigit_cex :
    write_wrong_zipcode_digits [['a', 'b', 'c', 'd', 'e']]
      (fun _ _ => false) (fun _ _ => 0) = Except.ok [['a', 'b', 'c', 'd', 'e']] ∧
    (['a', 'b', 'c', 'd', 'e'].all Char.isDigit) = false :=
  ⟨rfl, by decide⟩

/-- C7 (amended): `write_wrong_zipcode_digits` fails with the data-shape
error exactly when some value is not exactly 5 characters long (digit-ness is
not checked); the check happens before any value is noised, so the failing
result does not depend on the random draws and no partial output is
produced; when every value is a 5-character string it returns one
5-character string per input row. -/
theorem write_wrong_zipcode_digits_amended
    (data : List (List Char)) (replace_draw replace_draw2 : Nat → Nat → Bool)
    (digit_draw digit_draw2 : Nat → Nat → Fin 10) :
    ((∃ s ∈ data, s.length ≠ 5) →
      write_wrong_zipcode_digits data replace_draw digit_draw =
        Except.error
          "Zipcode data contains zipcodes that are not 5 digits long. Please check input data." ∧
      write_wrong_zipcode_digits data replace_draw digit_draw =
        write_wrong_zipcode_digits data replace_draw2 digit_draw2) ∧
    ((∀ s ∈ data, s.length = 5) →
      ∃ out, write_wrong_zipcode_digits data replace_draw digit_draw = Except.ok out ∧
        out.length = data.length ∧ ∀ t ∈ out, t.length = 5) := by
  constructor
  · intro hex
    have hany : data.any (fun s => s.length ≠ 5) = true := by
      rw [List.any_eq_true]
      rcases hex with ⟨s, hs, hlen⟩
      exact ⟨s, hs, by simpa using hlen⟩
    constructor
    · unfold write_wrong_zipcode_digits
      rw [if_pos hany]
    · unfold write_wrong_zipcode_digits
      rw [if_pos hany, if_pos hany]
  · intro hall
    have hany : data.any (fun s => s.length ≠ 5) = false := by
      rw [List.any_eq_false]
      simpa using hall
    have hok : write_wrong_zipcode_digits data replace_draw digit_draw =
        Except.ok (data.mapIdx (fun r s =>
          (List.range 5).map (fun i =>
            if replace_draw r i then digitChar (digit_draw r i) else s.getD i ' '))) := by
      have hne : ¬ (data.any (fun s => s.length ≠ 5) = true) := by
        rw [hany]
        simp
      unfold write_wrong_zipcode_digits
      rw [if_neg hne]
    refine ⟨_, hok, ?_, ?_⟩
    · simp [List.length_mapIdx]
    · intro t ht
      rcases List.mem_iff_getElem.mp ht with ⟨i, hi, rfl⟩
      rw [List.getElem_mapIdx]
      simp

/-- C7 witness: the amended statement evaluated at a short value (error) and
at a well-formed 5-character value (success with 5-character output). -/
theorem write_wrong_zipcode_digits_amended_witness :
    write_wrong_zipcode_digits [['1', '2', '3']] (fun _ _ => false) (fun _ _ => 0) =
      Except.error
        "Zipcode data contains zipcodes that are not 5 digits long. Please check input data." ∧
    (∃ out, write_wrong_zipcode_digits [['1', '2', '3', '4', '5']]
        (fun _ _ => false) (fun _ _ => 0) = Except.ok out ∧
      out.length = [['1', '2', '3', '4', '5']].length ∧ ∀ t ∈ out, t.length = 5) :=
  ⟨((write_wrong_zipcode_digits_amended [['1', '2', '3']] (fun _ _ => false)
      (fun _ _ => false) (fun _ _ => 0) (fun _ _ => 0)).1 (by decide)).1,
   (write_wrong_zipcode_digits_amended [['1', '2', '3', '4', '5']] (fun _ _ => false)
      (fun _ _ => false) (fun _ _ => 0) (fun _ _ => 0)).2 (by decide)⟩

/-! ### C5: write_wrong_digits -/

theorem pyIsSpace_digitChar (d : Fin 10) : pyIsSpace (digitChar d) = false := by
  revert d
  decide

theorem pad_right_getD_lt (s : List Char) (n i : Nat) (h : i < s.length) :
    (pad_right s n).getD i ' ' = s.getD i ' ' := by
  unfold pad_right
  rw [List.getD_eq_getElem?_getD, List.getElem?_append, if_pos h,
    ← List.getD_eq_getElem?_getD]

theorem pad_right_getD_ge (s : List Char) (n i : Nat) (h : s.length ≤ i) :
    (pad_right s n).getD i ' ' = ' ' := by
  unfold pad_right
  rw [List.getD_eq_getElem?_getD, List.getElem?_append, if_neg (by omega),
    List.getElem?_replicate]
  split <;> rfl

theorem dropWhile_replicate_space (k : Nat) (l : List Char) :
    (List.replicate k ' ' ++ l).dropWhile pyIsSpace = l.dropWhile pyIsSpace := by
  induction k with
  | zero => simp
  | succ m ih =>
    rw [List.replicate_succ, List.cons_append, List.dropWhile_cons_of_pos (by decide)]
    exact ih

theorem dropWhile_eq_self_of_head (p : Char → Bool) (l : List Char)
    (h : ∀ c, l.head? = some c → p c = false) : l.dropWhile p = l := by
  cases l with
  | nil => rfl
  | cons c rest => rw [List.dropWhile_cons_of_neg (by simp [h c rfl])]

theorem pyStrip_append_replicate (l : List Char) (k : Nat)
    (hhead : ∀ c, l.head? = some c → pyIsSpace c = false)
    (hlast : ∀ c, l.getLast? = some c → pyIsSpace c = false) :
    pyStrip (l ++ List.replicate k ' ') = l := by
  cases l with
  | nil =>
    simp only [List.nil_append]
    unfold pyStrip
    have h1 : (List.replicate k ' ').dropWhile pyIsSpace = [] := by
      have h := dropWhile_replicate_space k []
      simpa using h
    rw [h1]
    rfl
  | cons a rest =>
    unfold pyStrip
    have h1 : ((a :: rest) ++ List.replicate k ' ').dropWhile pyIsSpace =
        (a :: rest) ++ List.replicate k ' ' := by
      apply dropWhile_eq_self_of_head
      intro c hc
      simp only [List.cons_append, List.head?_cons, Option.some.injEq] at hc
      subst hc
      exact hhead a rfl
    rw [h1, List.reverse_append, List.reverse_replicate, dropWhile_replicate_space]
    have h2 : (a :: rest).reverse.dropWhile pyIsSpace = (a :: rest).reverse := by
      apply dropWhile_eq_self_of_head
      intro c hc
      rw [List.head?_reverse] at hc
      exact hlast c hc
    rw [h2, List.reverse_reverse]

theorem head?_range_succ (m : Nat) : (List.range (m + 1)).head? = some 0 := by
  rw [List.range_succ_eq_map]
  rfl

theorem getLast?_range_succ (m : Nat) : (List.range (m + 1)).getLast? = some m := by
  rw [List.range_succ]
  exact List.getLast?_concat _

theorem write_wrong_digits_string_eq
    (s : List Char) (n : Nat) (hn : s.length ≤ n)
    (rd : Nat → Bool) (dd : Nat → Fin 10)
    (hhead : ∀ c, s.head? = some c → pyIsSpace c = false)
    (hlast : ∀ c, s.getLast? = some c → pyIsSpace c = false) :
    write_wrong_digits_string s n rd dd =
      (List.range s.length).map (wwd_pos s n rd dd) := by
  unfold write_wrong_digits_string
  obtain ⟨k, rfl⟩ : ∃ k, n = s.length + k := ⟨n - s.length, by omega⟩
  rw [List.range_add, List.map_append, List.map_map]
  have hspdigit : (' ').isDigit = false := by decide
  have hsp : (List.range k).map (wwd_pos s (s.length + k) rd dd ∘ fun x => s.length + x) =
      List.replicate k ' ' := by
    refine List.eq_replicate_iff.mpr ⟨by simp, ?_⟩
    intro b hb
    rcases List.mem_map.mp hb with ⟨j, hj, rfl⟩
    simp only [Function.comp_apply, wwd_pos]
    rw [pad_right_getD_ge s _ _ (by omega)]
    rw [hspdigit]
    simp
  rw [hsp]
  apply pyStrip_append_replicate
  · intro c hc
    cases s with
    | nil => simp at hc
    | cons a rest =>
      rw [List.head?_map, List.length_cons, head?_range_succ] at hc
      simp only [Option.map_some'] at hc
      injection hc with hc
      subst hc
      simp only [wwd_pos]
      rw [pad_right_getD_lt _ _ _ (by simp)]
      rw [List.getD_cons_zero]
      split
      · exact pyIsSpace_digitChar _
      · exact hhead a rfl
  · intro c hc
    cases s with
    | nil => simp at hc
    | cons a rest =>
      rw [List.getLast?_map, List.length_cons, getLast?_range_succ] at hc
      simp only [Option.map_some'] at hc
      injection hc with hc
      subst hc
      simp only [wwd_pos]
      rw [pad_right_getD_lt _ _ _ (by simp)]
      have hm : rest.length < (a :: rest).length := by simp
      have he : (a :: rest)[rest.length]? = some ((a :: rest)[rest.length]) :=
        List.getElem?_eq_getElem hm
      have hgl : (a :: rest).getLast? = some ((a :: rest)[rest.length]) := by
        rw [List.getLast?_eq_getElem?]
        simp
      rw [List.getD_eq_getElem?_getD, he, Option.getD_some]
      split
      · exact pyIsSpace_digitChar _
      · exact hlast _ hgl

/-- C5 counterexample: the claim states that `write_wrong_digits` never
alters a non-digit character and always preserves the string length, but the
final `str.strip()` removes leading and trailing whitespace of the value
itself: the selected value `" 1"` (length 2, not missing) comes back as
`"1"` (length 1), its leading space deleted. -/
theorem write_wrong_digits_strip_cex :
    write_wrong_digits [[' ', '1']] (fun _ _ => false) (fun _ _ => 0) = [['1']] ∧
    ([' ', '1'] : List Char).length = 2 ∧
    ((['1'] : List Char).length ≠ 2) := by
  refine ⟨by decide, by decide, by decide⟩

/-- C5 (amended): for every selected string value with no leading or trailing
whitespace and every token probability (absorbed into the per-position
replacement draws), `write_wrong_digits` never alters a non-digit character
and the output string has exactly the same length as the input string. -/
theorem write_wrong_digits_amended
    (data : List (List Char)) (replace_draw : Nat → Nat → Bool)
    (digit_draw : Nat → Nat → Fin 10) (r : Nat) (hr : r < data.length)
    (hhead : ∀ c, (data[r]).head? = some c → pyIsSpace c = false)
    (hlast : ∀ c, (data[r]).getLast? = some c → pyIsSpace c = false) :
    ∃ hr2 : r < (write_wrong_digits data replace_draw digit_draw).length,
      ((write_wrong_digits data replace_draw digit_draw)[r]).length = (data[r]).length ∧
      ∀ i, i < (data[r]).length → ((data[r]).getD i ' ').isDigit = false →
        ((write_wrong_digits data replace_draw digit_draw)[r]).getD i ' ' =
          (data[r]).getD i ' ' := by
  have hr2 : r < (write_wrong_digits data replace_draw digit_draw).length := by
    simpa [write_wrong_digits, List.length_mapIdx] using hr
  refine ⟨hr2, ?_, ?_⟩
  all_goals
    have hlongest : (data[r]).length ≤ (data.map List.length).foldl max 0 :=
      mem_le_foldl_max _ 0 _ (List.mem_map_of_mem List.length (List.getElem_mem hr))
  all_goals
    have hrow : (write_wrong_digits data replace_draw digit_draw)[r] =
        (List.range (data[r]).length).map
          (wwd_pos (data[r]) ((data.map List.length).foldl max 0)
            (replace_draw r) (digit_draw r)) := by
      simp only [write_wrong_digits]
      rw [List.getElem_mapIdx]
      exact write_wrong_digits_string_eq _ _ hlongest _ _ hhead hlast
  · rw [hrow]
    simp
  · intro i hi hdig
    rw [hrow]
    have hlt : i < ((List.range (data[r]).length).map
        (wwd_pos (data[r]) ((data.map List.length).foldl max 0)
          (replace_draw r) (digit_draw r))).length := by
      simpa using hi
    rw [List.getD_eq_getElem?_getD, List.getElem?_eq_getElem hlt, Option.getD_some]
    rw [List.getElem_map, List.getElem_range]
    simp only [wwd_pos]
    rw [pad_right_getD_lt _ _ _ hi, hdig]
    simp

/-- C5 witness: the amended statement evaluated at the value "a1" with every
position selected for replacement: the non-digit is untouched and the length
is preserved. -/
theorem write_wrong_digits_amended_witness :
    ∃ hr2 : 0 < (write_wrong_digits [['a', '1']] (fun _ _ => true) (fun _ _ => 7)).length,
      ((write_wrong_digits [['a', '1']] (fun _ _ => true) (fun _ _ => 7))[0]).length =
        (([['a', '1']] : List (List Char))[0]).length ∧
      ∀ i, i < (([['a', '1']] : List (List Char))[0]).length →
        (((([['a', '1']] : List (List Char))[0]).getD i ' ').isDigit = false) →
        ((write_wrong_digits [['a', '1']] (fun _ _ => true) (fun _ _ => 7))[0]).getD i ' ' =
          (([['a', '1']] : List (List Char))[0]).getD i ' ' :=
  write_wrong_digits_amended [['a', '1']] (fun _ _ => true) (fun _ _ => 7) 0 (by decide)
    (by decide) (by decide)

end Pseudopeople
